import Mathlib

attribute [local semireducible] Rat.mul Rat.inv Rat.add Rat.sub

/-!
Verification of the article-processing core (aggregation sort, deduplication,
time filter, keyword filter) of the model_news repository, shallowly embedded
in Lean 4.

Modelling conventions:
* A Python article dict becomes the structure `Article`; `dict.get(k, "")`
  accesses are modelled by total `String` fields defaulting to `""`, and
  `dict.get("published")` by an `Option` field.
* A `datetime` value is modelled as a rational wall-clock reading (measured in
  hours, an order-faithful choice of unit) together with an optional timezone
  offset; `replace(tzinfo=None)` keeps the wall-clock reading and drops the
  offset, exactly as in CPython.
* Python float arithmetic on similarity scores is modelled in `ℚ`; every
  comparison proved concrete below is far from any rounding boundary.
* Python sets used only through membership tests (`seen_urls`) are modelled as
  lists with list membership.
-/

/-- Wall-clock datetime: `wall` is the naive reading, `tz` an optional
UTC offset.  `replace(tzinfo=None)` maps `⟨w, some o⟩` to `⟨w, none⟩`. -/
structure Datetime where
  wall : ℚ
  tz : Option ℚ
deriving DecidableEq

/-- An article record as produced by the fetchers: `title`, `summary`, `link`
and `source` are strings (missing keys read as `""` via `dict.get`),
`published` is an optional datetime. -/
structure Article where
  title : String
  summary : String
  link : String
  published : Option Datetime
  source : String
deriving DecidableEq

namespace UrlParse

/-- Characters allowed in a URL scheme by `urllib.parse` (letters, digits,
`+`, `-`, `.`). -/
def schemeChar (c : Char) : Bool :=
  c.isAlpha || c.isDigit || c = '+' || c = '-' || c = '.'

/-- Split a character list at the first occurrence of `ch`, dropping the
separator, as Python's `str.split(ch, 1)` / `str.find` idiom does; `none`
when `ch` does not occur. -/
def breakAtChar (ch : Char) : List Char → Option (List Char × List Char)
  | [] => none
  | c :: cs =>
      if c = ch then some ([], cs)
      else (breakAtChar ch cs).map (fun p => (c :: p.1, p.2))

/-- Part before the first occurrence of `ch` (the whole list when absent):
Python's `s.split(ch, 1)[0]`. -/
def upToChar (ch : Char) (l : List Char) : List Char :=
  match breakAtChar ch l with
  | some p => p.1
  | none => l

/-- The scheme step of CPython's `urlsplit`: if the part before the first
`:` is non-empty, starts with a letter and consists of scheme characters,
it is the (lower-cased) scheme and the rest follows the colon; otherwise
there is no scheme. -/
def splitScheme (l : List Char) : List Char × List Char :=
  match breakAtChar ':' l with
  | some (pre, post) =>
      if (match pre with
          | c :: _ => c.isAlpha
          | [] => false) && pre.all schemeChar
      then (pre.map Char.toLower, post)
      else ([], l)
  | none => ([], l)

/-- The netloc step of CPython's `urlsplit`: when the remainder starts with
`//`, the netloc extends to the first `/`, `?` or `#`. -/
def splitNetloc (l : List Char) : List Char × List Char :=
  match l with
  | '/' :: '/' :: rest =>
      (rest.takeWhile (fun c => !(c = '/' || c = '?' || c = '#')),
       rest.dropWhile (fun c => !(c = '/' || c = '?' || c = '#')))
  | _ => ([], l)

/-- Schemes for which CPython's `urlparse` splits a `;params` suffix off
the last path segment: the `uses_params` list of `urllib/parse.py`. -/
def usesParams : List String :=
  ["", "ftp", "hdl", "prospero", "http", "imap", "https", "shttp",
   "rtsp", "rtspu", "sip", "sips", "mms", "sftp", "tel"]

/-- First component of CPython's `_splitparams`: truncate the path at the
first `;` of its last segment (`url.find(';', url.rfind('/'))`); when the
path has no `/`, at the first `;` overall (the caller guarantees a `;` is
present in that case); a path whose last segment has no `;` is returned
unchanged. -/
def splitparamsFst (url : List Char) : List Char :=
  if '/' ∈ url then
    let seg := (url.reverse.takeWhile (fun c => c ≠ '/')).reverse
    let preRev := url.reverse.dropWhile (fun c => c ≠ '/')
    if ';' ∈ seg then preRev.reverse ++ seg.takeWhile (fun c => c ≠ ';')
    else url
  else
    url.takeWhile (fun c => c ≠ ';')

/-- Shallow embedding of `urllib.parse.urlparse` restricted to the three
components the code reads: `(scheme, netloc, path)`.  Fragment (after `#`)
and query (after `?`) are parsed and discarded in the same order as
CPython's `urlsplit`: scheme, then netloc, then fragment, then query;
on top of that, `urlparse` splits a `;params` suffix off the last path
segment when the scheme is one of `uses_params` (params discarded). -/
def urlparse (url : List Char) : List Char × List Char × List Char :=
  let (scheme, rest) := splitScheme url
  let (netloc, rest2) := splitNetloc rest
  let noFrag := upToChar '#' rest2
  let path0 := upToChar '?' noFrag
  let path := if String.mk scheme ∈ usesParams ∧ ';' ∈ path0 then splitparamsFst path0 else path0
  (scheme, netloc, path)

/-- Python's `str.rstrip("/")`: remove every trailing `/`. -/
def rstripSlash (l : List Char) : List Char :=
  (l.reverse.dropWhile (fun c => c = '/')).reverse

end UrlParse

namespace Deduplicator

/-- Embedding of `Deduplicator._normalize_url`: empty link maps to `""`;
otherwise the URL is parsed, reassembled as `f"{scheme}://{netloc}{path}"`
(query and fragment dropped) and all trailing slashes are removed by
`rstrip("/")`. -/
def normalizeUrl (url : String) : String :=
  if url = "" then ""
  else
    let p := UrlParse.urlparse url.data
    String.mk (UrlParse.rstripSlash (p.1 ++ (':' :: '/' :: '/' :: []) ++ p.2.1 ++ p.2.2))

/-- Embedding of `Deduplicator._calculate_similarity`: character-level
Jaccard coefficient of the two strings' distinct-character sets, `0` when
either string is empty. -/
def calculateSimilarity (s1 s2 : String) : ℚ :=
  if s1 = "" ∨ s2 = "" then 0
  else
    let set1 := s1.data.toFinset
    let set2 := s2.data.toFinset
    let inter := (set1 ∩ set2).card
    let uni := (set1 ∪ set2).card
    if uni = 0 then 0 else (inter : ℚ) / (uni : ℚ)

/-- Embedding of `Deduplicator._is_similar_title`: `false` for an empty
title, otherwise `true` iff some seen title scores `≥ threshold`. -/
def isSimilarTitle (threshold : ℚ) (title : String) (seen : List String) : Bool :=
  if title = "" then false
  else seen.any (fun t => decide (threshold ≤ calculateSimilarity title t))

/-- The `seen_urls` / `seen_titles` state threaded through the dedup loop.
`seen_urls` is a Python set used only via membership, modelled as a list. -/
structure SeenState where
  urls : List String
  titles : List String
deriving DecidableEq

/-- The loop body of `Deduplicator.deduplicate`: one left-to-right pass;
an article is skipped when its normalized URL was already seen, then when
its title is similar to a seen title; otherwise it is kept and its
normalized URL and raw title are recorded. -/
def dedupGo (threshold : ℚ) (s : SeenState) : List Article → List Article × SeenState
  | [] => ([], s)
  | a :: rest =>
      let nu := normalizeUrl a.link
      if nu ∈ s.urls then dedupGo threshold s rest
      else if isSimilarTitle threshold a.title s.titles then dedupGo threshold s rest
      else
        let out := dedupGo threshold ⟨nu :: s.urls, s.titles ++ [a.title]⟩ rest
        (a :: out.1, out.2)

/-- Embedding of `Deduplicator.deduplicate` (the `if not articles` early
return coincides with running the loop on `[]`). -/
def deduplicate (threshold : ℚ) (articles : List Article) : List Article :=
  (dedupGo threshold ⟨[], []⟩ articles).1

/-- Normalized links of the articles kept from `l`: the URL keys a further
article is checked against. -/
def keptUrls (threshold : ℚ) (l : List Article) : List String :=
  (deduplicate threshold l).map (fun b => normalizeUrl b.link)

/-- Titles of the articles kept from `l`: the previously accepted titles a
further article's title is compared with. -/
def keptTitles (threshold : ℚ) (l : List Article) : List String :=
  (deduplicate threshold l).map Article.title

end Deduplicator

namespace Deduplicator

/-- Normalization as the spec sentence words it: keep only scheme, host and
path, stripping the query string, the fragment, and a SINGLE trailing slash.
Declared only to compare the claim's wording with the implementation's
`rstrip("/")`, which strips every trailing slash. -/
def claimNormalizeUrl (url : String) : String :=
  if url = "" then ""
  else
    let p := UrlParse.urlparse url.data
    let full := p.1 ++ (':' :: '/' :: '/' :: []) ++ p.2.1 ++ p.2.2
    String.mk (if full.getLast? = some '/' then full.dropLast else full)

/-- The `similarity_threshold` stored by `Deduplicator.__init__`.  The
constructor performs no validation: it stores whatever it is given. -/
structure Config where
  similarityThreshold : ℚ
deriving DecidableEq

/-- Embedding of `Deduplicator.__init__`: the threshold is stored unchecked. -/
def init (similarityThreshold : ℚ) : Config :=
  ⟨similarityThreshold⟩

end Deduplicator

namespace Aggregator

/-- Comparison key used by `_sort_by_date.get_date`: a missing `published`
maps to `datetime.min`, the minimum possible time, modelled by `⊥`.  A
present datetime is compared the way CPython compares `datetime` values
wherever that comparison is defined: naive values by wall clock, aware
values by wall clock minus offset. -/
def getDate (a : Article) : WithBot ℚ :=
  match a.published with
  | none => (⊥ : WithBot ℚ)
  | some d => ((d.wall - d.tz.getD 0 : ℚ) : WithBot ℚ)

/-- Descending order on articles used by `sorted(..., reverse=True)`:
`a` may come before `b` iff `get_date(b) ≤ get_date(a)`. -/
def dateGe (a b : Article) : Prop :=
  getDate b ≤ getDate a

instance : DecidableRel dateGe :=
  fun a b => inferInstanceAs (Decidable (getDate b ≤ getDate a))

instance : IsTotal Article dateGe :=
  ⟨fun a b => Or.symm (le_total (getDate a) (getDate b))⟩

instance : IsTrans Article dateGe :=
  ⟨fun _ _ _ h1 h2 => le_trans h2 h1⟩

/-- Embedding of `Aggregator._sort_by_date`: a stable sort, descending on
`get_date`.  CPython's `sorted` with `reverse=True` is a stable descending
sort; `List.insertionSort` with the reflexive descending relation computes
the same (unique) stable descending reordering. -/
def sortByDate (articles : List Article) : List Article :=
  List.insertionSort dateGe articles

/-- Embedding of the merge-and-sort contract of `Aggregator.fetch_all`
(lines 54-74): the per-source lists are concatenated (`all_articles.extend`)
and handed to `_sort_by_date`.  The network fetching itself is I/O outside
the core. -/
def fetchAllMerge (sources : List (List Article)) : List Article :=
  sortByDate sources.flatten

end Aggregator

namespace TimeFilter

/-- The `hours` window stored by `TimeFilter.__init__`.  The constructor
performs no validation: it stores whatever it is given. -/
structure Config where
  hours : ℤ
deriving DecidableEq

/-- Embedding of `TimeFilter.__init__`: the window is stored unchecked. -/
def init (hours : ℤ) : Config :=
  ⟨hours⟩

/-- Loop body of `TimeFilter.filter`: keep an article without `published`;
otherwise strip the timezone offset when one is present (keeping the
wall-clock reading, as `replace(tzinfo=None)` does) and keep the article
iff the stripped value is `≥ cutoff`. -/
def filterGo (cutoff : ℚ) : List Article → List Article
  | [] => []
  | a :: rest =>
      match a.published with
      | none => a :: filterGo cutoff rest
      | some d =>
          let pd := if d.tz ≠ none then ({ wall := d.wall, tz := none } : Datetime) else d
          if cutoff ≤ pd.wall then a :: filterGo cutoff rest else filterGo cutoff rest

/-- Embedding of `TimeFilter.filter`: `cutoff = now - hours` is computed
once from the single `now` snapshot, then the list is traversed (the
`if not articles` early return coincides with the loop on `[]`). -/
def filter (hours : ℤ) (now : ℚ) (articles : List Article) : List Article :=
  if articles = [] then [] else filterGo (now - (hours : ℚ)) articles

end TimeFilter

namespace KeywordFilter

/-- Embedding of `KeywordFilter.DEFAULT_TOPICS`, the built-in vocabulary. -/
def DEFAULT_TOPICS : List String :=
  ["DeepSeek", "深度求索",
   "Qwen", "通义千问", "阿里云",
   "GLM", "智谱", "ChatGLM",
   "Kimi", "Moonshot", "月之暗面",
   "豆包", "字节", "火山引擎",
   "文心一言", "百度", "ERNIE",
   "混元", "腾讯",
   "MiniMax", "海螺",
   "百川", "Baichuan",
   "零一万物", "Yi",
   "阶跃星辰", "Step",
   "商汤", "SenseChat",
   "GPT", "OpenAI", "ChatGPT",
   "Claude", "Anthropic",
   "Gemini", "Google",
   "Llama", "Meta",
   "大模型", "LLM", "大语言模型",
   "AI", "人工智能", "机器学习",
   "AGI", "通用人工智能",
   "推理模型", "Reasoning",
   "多模态", "视觉语言",
   "AI Agent", "智能体",
   "RAG", "向量数据库",
   "微调", "Fine-tune",
   "RLHF", "强化学习"]

/-- Python's `or` between two list values: the left operand unless it is
empty (falsy). -/
def pyOr (a b : List String) : List String :=
  if a = [] then b else a

/-- Embedding of `KeywordFilter.__init__`:
`self.topics = topics or self._load_topics_from_env() or self.DEFAULT_TOPICS`.
`envTopics` stands for the list returned by `_load_topics_from_env`, whose
environment reading and JSON / comma parsing are outside the pure core; it
may be any list (it is `[]` when the variable is unset or unparseable). -/
def init (topics : Option (List String)) (envTopics : List String) : List String :=
  pyOr (topics.getD []) (pyOr envTopics DEFAULT_TOPICS)

/-- Python's `needle in haystack` substring test on character lists. -/
def startsWith : List Char → List Char → Bool
  | [], _ => true
  | _ :: _, [] => false
  | a :: as, b :: bs => a = b && startsWith as bs

/-- Substring containment, as Python's `in` operator on strings. -/
def containsSub (needle : List Char) : List Char → Bool
  | [] => startsWith needle []
  | c :: rest => startsWith needle (c :: rest) || containsSub needle rest

/-- Python's `str.lower`, modelled per character with `Char.toLower`,
which agrees with CPython on the ASCII and CJK text the repository
handles. -/
def lower (s : String) : List Char :=
  s.data.map Char.toLower

/-- Embedding of `KeywordFilter._matches_any_topic`: lower-cased title and
summary are joined by a space (`f"{title} {summary}"`); the article
matches iff some topic, lower-cased, is a substring of that blob. -/
def matchesAnyTopic (topics : List String) (a : Article) : Bool :=
  let text := lower a.title ++ (' ' :: lower a.summary)
  topics.any (fun t => containsSub (lower t) text)

/-- Embedding of `KeywordFilter.filter`: with an empty vocabulary the input
is returned unchanged; otherwise articles matching some topic are kept in
order. -/
def filter (topics : List String) (articles : List Article) : List Article :=
  if topics = [] then articles
  else articles.filter (matchesAnyTopic topics)

end KeywordFilter

namespace Deduplicator

theorem dedupGo_append (θ : ℚ) (l₁ l₂ : List Article) : ∀ s,
    dedupGo θ s (l₁ ++ l₂) =
      ((dedupGo θ s l₁).1 ++ (dedupGo θ (dedupGo θ s l₁).2 l₂).1,
       (dedupGo θ (dedupGo θ s l₁).2 l₂).2) := by
  induction l₁ with
  | nil => intro s; simp [dedupGo]
  | cons a rest ih =>
      intro s
      simp only [List.cons_append, dedupGo]
      by_cases h1 : normalizeUrl a.link ∈ s.urls
      · simp only [if_pos h1]; exact ih s
      · simp only [if_neg h1]
        by_cases h2 : isSimilarTitle θ a.title s.titles = true
        · simp only [if_pos h2]; exact ih s
        · simp only [if_neg h2, List.append_eq, ih]
          simp

theorem dedupGo_state (θ : ℚ) (l : List Article) : ∀ s,
    (dedupGo θ s l).2 =
      ⟨((dedupGo θ s l).1.map (fun b => normalizeUrl b.link)).reverse ++ s.urls,
       s.titles ++ (dedupGo θ s l).1.map Article.title⟩ := by
  induction l with
  | nil => intro s; simp [dedupGo]
  | cons a rest ih =>
      intro s
      simp only [dedupGo]
      by_cases h1 : normalizeUrl a.link ∈ s.urls
      · simp only [if_pos h1]; exact ih s
      · simp only [if_neg h1]
        by_cases h2 : isSimilarTitle θ a.title s.titles = true
        · simp only [if_pos h2]; exact ih s
        · simp only [if_neg h2, ih]
          simp [List.append_assoc, List.reverse_cons]

theorem dedupGo_kept_not_seen (θ : ℚ) (l : List Article) : ∀ s b,
    b ∈ (dedupGo θ s l).1 → normalizeUrl b.link ∉ s.urls := by
  induction l with
  | nil => intro s b hb; simp [dedupGo] at hb
  | cons a rest ih =>
      intro s b hb
      simp only [dedupGo] at hb
      by_cases h1 : normalizeUrl a.link ∈ s.urls
      · rw [if_pos h1] at hb; exact ih s b hb
      · rw [if_neg h1] at hb
        by_cases h2 : isSimilarTitle θ a.title s.titles = true
        · rw [if_pos h2] at hb; exact ih s b hb
        · rw [if_neg h2] at hb
          rcases List.mem_cons.mp hb with rfl | hb'
          · exact h1
          · intro hmem
            exact ih _ b hb' (List.mem_cons_of_mem _ hmem)

theorem dedupGo_map_nodup (θ : ℚ) (l : List Article) : ∀ s,
    ((dedupGo θ s l).1.map (fun b => normalizeUrl b.link)).Nodup := by
  induction l with
  | nil => intro s; simp [dedupGo]
  | cons a rest ih =>
      intro s
      simp only [dedupGo]
      by_cases h1 : normalizeUrl a.link ∈ s.urls
      · rw [if_pos h1]; exact ih s
      · rw [if_neg h1]
        by_cases h2 : isSimilarTitle θ a.title s.titles = true
        · rw [if_pos h2]; exact ih s
        · rw [if_neg h2]
          simp only [List.map_cons, List.nodup_cons]
          refine ⟨?_, ih _⟩
          intro hmem
          rcases List.mem_map.mp hmem with ⟨b, hb, heq⟩
          exact dedupGo_kept_not_seen θ rest _ b hb (heq ▸ List.mem_cons_self _ _)

theorem dedupGo_idem (θ : ℚ) (l : List Article) : ∀ s,
    (dedupGo θ s ((dedupGo θ s l).1)).1 = (dedupGo θ s l).1 := by
  induction l with
  | nil => intro s; simp [dedupGo]
  | cons a rest ih =>
      intro s
      by_cases h1 : normalizeUrl a.link ∈ s.urls
      · simp only [dedupGo, if_pos h1]; exact ih s
      · by_cases h2 : isSimilarTitle θ a.title s.titles = true
        · simp only [dedupGo, if_neg h1, if_pos h2]; exact ih s
        · simp only [dedupGo, if_neg h1, if_neg h2]
          exact congrArg (a :: ·) (ih _)

end Deduplicator

namespace Deduplicator

theorem isSimilarTitle_iff (θ : ℚ) (t : String) (seen : List String) :
    isSimilarTitle θ t seen = true ↔
      t ≠ "" ∧ ∃ u ∈ seen, θ ≤ calculateSimilarity t u := by
  unfold isSimilarTitle
  by_cases h : t = ""
  · simp [h]
  · simp [h, List.any_eq_true]

theorem dedup_singleton (θ : ℚ) (a : Article) : deduplicate θ [a] = [a] := by
  unfold deduplicate
  simp [dedupGo, isSimilarTitle]

theorem deduplicate_snoc (θ : ℚ) (l : List Article) (a : Article) :
    deduplicate θ (l ++ [a]) =
      if normalizeUrl a.link ∈ keptUrls θ l ∨ isSimilarTitle θ a.title (keptTitles θ l) = true
      then deduplicate θ l
      else deduplicate θ l ++ [a] := by
  unfold deduplicate
  rw [dedupGo_append θ l [a], dedupGo_state θ l]
  by_cases h1 : normalizeUrl a.link ∈ keptUrls θ l
  · have h1' : normalizeUrl a.link ∈
        (((dedupGo θ ⟨[], []⟩ l).1.map (fun b => normalizeUrl b.link)).reverse ++ ([] : List String)) := by
      rw [List.append_nil, List.mem_reverse]
      exact h1
    simp only [dedupGo, if_pos h1']
    rw [if_pos (Or.inl h1)]
    exact List.append_nil _
  · have h1' : normalizeUrl a.link ∉
        (((dedupGo θ ⟨[], []⟩ l).1.map (fun b => normalizeUrl b.link)).reverse ++ ([] : List String)) := by
      rw [List.append_nil, List.mem_reverse]
      exact h1
    by_cases h2 : isSimilarTitle θ a.title (keptTitles θ l) = true
    · have h2' : isSimilarTitle θ a.title
          (([] : List String) ++ (dedupGo θ ⟨[], []⟩ l).1.map Article.title) = true := h2
      simp only [dedupGo, if_neg h1', if_pos h2']
      rw [if_pos (Or.inr h2)]
      exact List.append_nil _
    · have h2' : ¬ isSimilarTitle θ a.title
          (([] : List String) ++ (dedupGo θ ⟨[], []⟩ l).1.map Article.title) = true := h2
      simp only [dedupGo, if_neg h1', if_neg h2']
      rw [if_neg (by push_neg; exact ⟨h1, h2⟩)]

theorem length_filter_le_one_of_map_nodup {α β : Type} [DecidableEq β]
    (f : α → β) (c : β) : ∀ l : List α, (l.map f).Nodup →
    (l.filter (fun x => decide (f x = c))).length ≤ 1 := by
  intro l
  induction l with
  | nil => intro _; simp
  | cons a t ih =>
      intro hnd
      rw [List.map_cons, List.nodup_cons] at hnd
      by_cases hfa : f a = c
      · have hemp : t.filter (fun x => decide (f x = c)) = [] := by
          rw [List.filter_eq_nil_iff]
          intro b hb
          simp only [decide_eq_true_eq]
          intro hbc
          exact hnd.1 (List.mem_map.mpr ⟨b, hb, by rw [hbc, hfa]⟩)
        simp [List.filter_cons, hfa, hemp]
      · simp only [List.filter_cons, decide_eq_true_eq, hfa, if_false]
        exact ih hnd.2

end Deduplicator

namespace KeywordFilter

theorem startsWith_iff (n : List Char) : ∀ h : List Char,
    startsWith n h = true ↔ ∃ rest, h = n ++ rest := by
  induction n with
  | nil =>
      intro h
      simp [startsWith]
  | cons a as ih =>
      intro h
      cases h with
      | nil =>
          simp only [startsWith, Bool.false_eq_true, false_iff]
          rintro ⟨rest, hr⟩
          exact List.cons_ne_nil a (as ++ rest) hr.symm
      | cons b bs =>
          simp only [startsWith, Bool.and_eq_true, decide_eq_true_eq, ih]
          constructor
          · rintro ⟨rfl, rest, rfl⟩
            exact ⟨rest, rfl⟩
          · rintro ⟨rest, hr⟩
            rw [List.cons_append] at hr
            injection hr with h1 h2
            exact ⟨h1.symm, rest, h2⟩

theorem containsSub_iff (n : List Char) : ∀ h : List Char,
    containsSub n h = true ↔ ∃ pre post, h = pre ++ n ++ post := by
  intro h
  induction h with
  | nil =>
      simp only [containsSub, startsWith_iff]
      constructor
      · rintro ⟨rest, hr⟩
        exact ⟨[], rest, by simpa using hr⟩
      · rintro ⟨pre, post, hp⟩
        have h1 := List.append_eq_nil.mp hp.symm
        have h2 := List.append_eq_nil.mp h1.1
        exact ⟨[], by simp [h2.2]⟩
  | cons c rest ih =>
      simp only [containsSub, Bool.or_eq_true, startsWith_iff, ih]
      constructor
      · rintro (⟨r, hr⟩ | ⟨pre, post, hp⟩)
        · exact ⟨[], r, by simpa using hr⟩
        · exact ⟨c :: pre, post, by simp [hp]⟩
      · rintro ⟨pre, post, hp⟩
        cases pre with
        | nil =>
            left
            exact ⟨post, by simpa using hp⟩
        | cons x xs =>
            right
            rw [List.cons_append, List.cons_append] at hp
            injection hp with h1 h2
            exact ⟨xs, post, by simpa using h2⟩

end KeywordFilter

namespace TimeFilter

theorem filterGo_eq_filter (c : ℚ) : ∀ l : List Article,
    filterGo c l = l.filter (fun a =>
      match a.published with
      | none => true
      | some d => decide (c ≤ d.wall)) := by
  intro l
  induction l with
  | nil => rfl
  | cons a rest ih =>
      cases hp : a.published with
      | none => simp [filterGo, hp, List.filter_cons, ih]
      | some d =>
          have hw : (if d.tz ≠ none then ({ wall := d.wall, tz := none } : Datetime) else d).wall
              = d.wall := by
            by_cases ht : d.tz = none <;> simp [ht]
          simp only [filterGo, hp, hw]
          by_cases hc : c ≤ d.wall
          · simp [hc, List.filter_cons, hp, ih]
          · simp [hc, List.filter_cons, hp, ih]

end TimeFilter

namespace Aggregator

theorem filter_key_orderedInsert (k : WithBot ℚ) (a : Article) (l : List Article) :
    (List.orderedInsert dateGe a l).filter (fun b => decide (getDate b = k)) =
      if getDate a = k
      then a :: l.filter (fun b => decide (getDate b = k))
      else l.filter (fun b => decide (getDate b = k)) := by
  rw [List.orderedInsert_eq_take_drop, List.filter_append]
  by_cases hk : getDate a = k
  · have htake : (l.takeWhile fun b => ¬ dateGe a b).filter (fun b => decide (getDate b = k)) = [] := by
      rw [List.filter_eq_nil_iff]
      intro b hb
      have hprop := List.mem_takeWhile_imp hb
      simp only [decide_eq_true_eq] at hprop ⊢
      intro hbk
      exact hprop (le_of_eq (by rw [hbk, hk]))
    rw [if_pos hk, htake, List.filter_cons]
    conv_rhs => rw [← List.takeWhile_append_dropWhile (p := fun b => decide ¬ dateGe a b) (l := l)]
    rw [List.filter_append, htake]
    simp [hk]
  · rw [if_neg hk, List.filter_cons]
    conv_rhs => rw [← List.takeWhile_append_dropWhile (p := fun b => decide ¬ dateGe a b) (l := l)]
    rw [List.filter_append]
    simp [hk]

theorem filter_key_sortByDate (k : WithBot ℚ) : ∀ l : List Article,
    (sortByDate l).filter (fun b => decide (getDate b = k)) =
      l.filter (fun b => decide (getDate b = k)) := by
  intro l
  induction l with
  | nil => rfl
  | cons a rest ih =>
      show ((sortByDate rest).orderedInsert dateGe a).filter _ = _
      rw [filter_key_orderedInsert, List.filter_cons]
      by_cases hk : getDate a = k
      · simp [hk, ih]
      · simp [hk, ih]

end Aggregator

/-- C1 counterexample.  The claim describes normalization as stripping "a
single trailing slash", but `_normalize_url` ends with `rstrip("/")`, which
strips every trailing slash.  With links `https://x.com/a//` and
`https://x.com/a` and unrelated titles (`abc` / `xyz`, similarity `0`), the
single-slash normalization of the claim distinguishes the two links
(`https://x.com/a/` vs `https://x.com/a`), so under the claim the second
article would be kept; the implementation drops it. -/
theorem C1_counterexample :
    Deduplicator.deduplicate (4/5)
      [⟨"abc", "", "https://x.com/a//", none, ""⟩, ⟨"xyz", "", "https://x.com/a", none, ""⟩]
      = [⟨"abc", "", "https://x.com/a//", none, ""⟩]
    ∧ (Deduplicator.claimNormalizeUrl "https://x.com/a" ==
        Deduplicator.claimNormalizeUrl "https://x.com/a//") = false
    ∧ Deduplicator.calculateSimilarity "xyz" "abc" < 4/5 :=
  ⟨by decide, by decide, by decide⟩

/-- C1 (amended: `rstrip("/")` strips every trailing slash, not a single
one, and `urlparse` also discards a `;params` suffix of the last path
segment for http/https links): an article whose normalized link equals
the normalized link of an earlier kept article is dropped; when its title
is not similar to any previously accepted title this is exact (dropped
iff such a collision); the links `https://x.com/a?utm=1` and
`https://x.com/a/` normalize to the same key `https://x.com/a` (as does
`https://x.com/a;b`, its path params stripped), so of two articles
carrying them only the first is kept, whatever the titles, summaries or
dates. -/
theorem C1_url_identity_dedup :
    (∀ (θ : ℚ) (l : List Article) (a : Article),
        Deduplicator.normalizeUrl a.link ∈ Deduplicator.keptUrls θ l →
        Deduplicator.deduplicate θ (l ++ [a]) = Deduplicator.deduplicate θ l)
    ∧ (∀ (θ : ℚ) (l : List Article) (a : Article),
        Deduplicator.isSimilarTitle θ a.title (Deduplicator.keptTitles θ l) = false →
        (Deduplicator.deduplicate θ (l ++ [a]) = Deduplicator.deduplicate θ l ↔
          Deduplicator.normalizeUrl a.link ∈ Deduplicator.keptUrls θ l))
    ∧ Deduplicator.normalizeUrl "https://x.com/a?utm=1" = "https://x.com/a"
    ∧ Deduplicator.normalizeUrl "https://x.com/a/" = "https://x.com/a"
    ∧ Deduplicator.normalizeUrl "https://x.com/a;b" = "https://x.com/a"
    ∧ Deduplicator.normalizeUrl "https://x.com/a;b/c" = "https://x.com/a;b/c"
    ∧ (∀ (θ : ℚ) (t1 s1 src1 t2 s2 src2 : String) (p1 p2 : Option Datetime),
        Deduplicator.deduplicate θ
          [⟨t1, s1, "https://x.com/a?utm=1", p1, src1⟩, ⟨t2, s2, "https://x.com/a/", p2, src2⟩]
          = [⟨t1, s1, "https://x.com/a?utm=1", p1, src1⟩]) := by
  refine ⟨?_, ?_, by decide, by decide, by decide, by decide, ?_⟩
  · intro θ l a h
    rw [Deduplicator.deduplicate_snoc]
    exact if_pos (Or.inl h)
  · intro θ l a hsim
    rw [Deduplicator.deduplicate_snoc]
    by_cases hmem : Deduplicator.normalizeUrl a.link ∈ Deduplicator.keptUrls θ l
    · rw [if_pos (Or.inl hmem)]
      exact iff_of_true rfl hmem
    · rw [if_neg (by simp [hmem, hsim])]
      refine iff_of_false (fun hcontra => ?_) hmem
      have hlen := congrArg List.length hcontra
      simp at hlen
  · intro θ t1 s1 src1 t2 s2 src2 p1 p2
    have hmem : Deduplicator.normalizeUrl
        (⟨t2, s2, "https://x.com/a/", p2, src2⟩ : Article).link ∈
        Deduplicator.keptUrls θ [⟨t1, s1, "https://x.com/a?utm=1", p1, src1⟩] := by
      unfold Deduplicator.keptUrls
      rw [Deduplicator.dedup_singleton]
      exact List.mem_singleton.mpr rfl
    show Deduplicator.deduplicate θ
        ([⟨t1, s1, "https://x.com/a?utm=1", p1, src1⟩] ++ [⟨t2, s2, "https://x.com/a/", p2, src2⟩]) = _
    rw [Deduplicator.deduplicate_snoc, if_pos (Or.inl hmem), Deduplicator.dedup_singleton]

/-- C1 witness: concrete instances of the two conditional parts of
`C1_url_identity_dedup`. -/
theorem C1_witness :
    Deduplicator.deduplicate (4/5)
        ([⟨"n1", "", "https://x.com/a?utm=1", none, ""⟩] ++ [⟨"n2", "", "https://x.com/a/", none, ""⟩])
      = Deduplicator.deduplicate (4/5) [⟨"n1", "", "https://x.com/a?utm=1", none, ""⟩]
    ∧ (Deduplicator.deduplicate (4/5)
          ([⟨"pq", "", "https://c.com/1", none, ""⟩] ++ [⟨"rs", "", "https://c.com/2", none, ""⟩])
        = Deduplicator.deduplicate (4/5) [⟨"pq", "", "https://c.com/1", none, ""⟩] ↔
        Deduplicator.normalizeUrl "https://c.com/2" ∈
          Deduplicator.keptUrls (4/5) [⟨"pq", "", "https://c.com/1", none, ""⟩]) :=
  ⟨C1_url_identity_dedup.1 (4/5) _ _ (by decide),
   C1_url_identity_dedup.2.1 (4/5) _ _ (by decide)⟩

/-- C2 counterexample.  At threshold `0` (inside the claimed range `[0,1]`)
an article with an empty title survives: `_is_similar_title` returns
`False` for an empty title before any score is computed, although its
score `0` against the previously accepted title `t1` does satisfy
`score ≥ threshold`, so the claim would require it to be dropped. -/
theorem C2_counterexample :
    Deduplicator.deduplicate 0
      [⟨"t1", "", "https://a.com/x", none, ""⟩, ⟨"", "", "https://b.com/y", none, ""⟩]
      = [⟨"t1", "", "https://a.com/x", none, ""⟩, ⟨"", "", "https://b.com/y", none, ""⟩]
    ∧ (Deduplicator.normalizeUrl "https://b.com/y" ==
        Deduplicator.normalizeUrl "https://a.com/x") = false
    ∧ Deduplicator.calculateSimilarity "" "t1" = 0
    ∧ ((0:ℚ) ≤ 0 ∧ (0:ℚ) ≤ 1) :=
  ⟨by decide, by decide,
   by unfold Deduplicator.calculateSimilarity; rw [if_pos (Or.inl rfl)],
   le_refl 0, by norm_num⟩

/-- C2 (amended: an article with an empty title is never dropped by the
similarity check, which short-circuits to false before any comparison):
an article surviving the URL-identity check is dropped exactly when its
title is non-empty and scores `≥ threshold` against some previously
accepted title; the score is the Jaccard coefficient of the two titles'
distinct-character sets, `0` when either title is empty; at threshold
`0.8` the titles `OpenAI发布新模型` / `OpenAI发布新模型！` count as
duplicates while `DeepSeek发布R2` / `Qwen发布新版本` do not. -/
theorem C2_title_similarity_dedup :
    (∀ (θ : ℚ) (l : List Article) (a : Article),
        Deduplicator.normalizeUrl a.link ∉ Deduplicator.keptUrls θ l →
        (Deduplicator.deduplicate θ (l ++ [a]) = Deduplicator.deduplicate θ l ↔
          (a.title ≠ "" ∧ ∃ t ∈ Deduplicator.keptTitles θ l,
            θ ≤ Deduplicator.calculateSimilarity a.title t)))
    ∧ (∀ s1 s2 : String, s1 ≠ "" → s2 ≠ "" →
        Deduplicator.calculateSimilarity s1 s2 =
          ((s1.data.toFinset ∩ s2.data.toFinset).card : ℚ) /
            ((s1.data.toFinset ∪ s2.data.toFinset).card : ℚ))
    ∧ (∀ s : String, Deduplicator.calculateSimilarity "" s = 0
        ∧ Deduplicator.calculateSimilarity s "" = 0)
    ∧ (4/5 : ℚ) ≤ Deduplicator.calculateSimilarity "OpenAI发布新模型" "OpenAI发布新模型！"
    ∧ Deduplicator.calculateSimilarity "DeepSeek发布R2" "Qwen发布新版本" < 4/5 := by
  refine ⟨?_, ?_, ?_, by decide, by decide⟩
  · intro θ l a hmem
    rw [Deduplicator.deduplicate_snoc]
    by_cases hsim : Deduplicator.isSimilarTitle θ a.title (Deduplicator.keptTitles θ l) = true
    · rw [if_pos (Or.inr hsim)]
      exact iff_of_true rfl ((Deduplicator.isSimilarTitle_iff _ _ _).mp hsim)
    · rw [if_neg (by simp [hmem, hsim])]
      refine iff_of_false (fun hcontra => ?_)
        (fun hx => hsim ((Deduplicator.isSimilarTitle_iff _ _ _).mpr hx))
      have hlen := congrArg List.length hcontra
      simp at hlen
  · intro s1 s2 h1 h2
    unfold Deduplicator.calculateSimilarity
    rw [if_neg (by simp [h1, h2])]
    have hd : s1.data ≠ [] := by
      cases s1 with
      | mk data => intro hnil; subst hnil; exact h1 rfl
    rcases List.exists_mem_of_ne_nil _ hd with ⟨c, hc⟩
    have hcu : c ∈ s1.data.toFinset ∪ s2.data.toFinset :=
      Finset.mem_union_left _ (List.mem_toFinset.mpr hc)
    rw [if_neg (Finset.card_ne_zero_of_mem hcu)]
  · intro s
    constructor
    · unfold Deduplicator.calculateSimilarity; rw [if_pos (Or.inl rfl)]
    · unfold Deduplicator.calculateSimilarity; rw [if_pos (Or.inr rfl)]

/-- C2 witness: concrete instances of the two conditional parts of
`C2_title_similarity_dedup`. -/
theorem C2_witness :
    (Deduplicator.deduplicate (4/5)
          ([⟨"abcdefgh", "", "https://a.com/x", none, ""⟩]
            ++ [⟨"abcdefgh!", "", "https://b.com/y", none, ""⟩])
        = Deduplicator.deduplicate (4/5) [⟨"abcdefgh", "", "https://a.com/x", none, ""⟩] ↔
        ("abcdefgh!" ≠ "" ∧ ∃ t ∈ Deduplicator.keptTitles (4/5)
            [⟨"abcdefgh", "", "https://a.com/x", none, ""⟩],
          (4/5 : ℚ) ≤ Deduplicator.calculateSimilarity "abcdefgh!" t))
    ∧ Deduplicator.calculateSimilarity "ab" "cd" =
        (("ab".data.toFinset ∩ "cd".data.toFinset).card : ℚ) /
          (("ab".data.toFinset ∪ "cd".data.toFinset).card : ℚ) :=
  ⟨C2_title_similarity_dedup.1 (4/5) _ _ (by decide),
   C2_title_similarity_dedup.2.1 "ab" "cd" (by decide) (by decide)⟩

/-- C5: `deduplicate` is idempotent — run on its own output it returns
that output unchanged, at every threshold. -/
theorem C5_dedup_idempotent (θ : ℚ) (l : List Article) :
    Deduplicator.deduplicate θ (Deduplicator.deduplicate θ l) = Deduplicator.deduplicate θ l :=
  Deduplicator.dedupGo_idem θ l ⟨[], []⟩

/-- C9 counterexample.  The input holds two link-less articles (`abc` and
`xyz` titled); the first of them is dropped by title similarity against the
kept titled article `abc`, so its empty key is never recorded and the later
link-less article `xyz` is kept — the output keeps a link-less article that
is not the first one, contradicting "only the first such article is kept"
and "all later link-less articles are dropped". -/
theorem C9_counterexample :
    Deduplicator.deduplicate (4/5)
      [⟨"abc", "", "http://a.com/p", none, ""⟩, ⟨"abc", "", "", none, ""⟩, ⟨"xyz", "", "", none, ""⟩]
      = [⟨"abc", "", "http://a.com/p", none, ""⟩, ⟨"xyz", "", "", none, ""⟩]
    ∧ (⟨"abc", "", "", none, ""⟩ : Article).link = ""
    ∧ (⟨"xyz", "", "", none, ""⟩ : Article).link = "" :=
  ⟨by decide, rfl, rfl⟩

/-- C9 (amended): an empty link normalizes to the empty string; once some
link-less article has been KEPT, every later link-less article collides on
the empty key and is dropped, so the output never holds two articles whose
links normalize to the empty string — but the first link-less article may
itself fall to the title-similarity check, in which case a later link-less
article can be the one that is kept. -/
theorem C9_empty_link_collision :
    Deduplicator.normalizeUrl "" = ""
    ∧ (∀ (θ : ℚ) (l : List Article) (a : Article),
        a.link = "" →
        ("" : String) ∈ Deduplicator.keptUrls θ l →
        Deduplicator.deduplicate θ (l ++ [a]) = Deduplicator.deduplicate θ l)
    ∧ (∀ (θ : ℚ) (l : List Article),
        ((Deduplicator.deduplicate θ l).filter
          (fun b => decide (Deduplicator.normalizeUrl b.link = ""))).length ≤ 1) := by
  refine ⟨rfl, ?_, ?_⟩
  · intro θ l a ha hmem
    rw [Deduplicator.deduplicate_snoc]
    refine if_pos (Or.inl ?_)
    have hn : Deduplicator.normalizeUrl a.link = "" := by rw [ha]; rfl
    rw [hn]
    exact hmem
  · intro θ l
    exact Deduplicator.length_filter_le_one_of_map_nodup _ _ _
      (Deduplicator.dedupGo_map_nodup θ l ⟨[], []⟩)

/-- C9 witness: a concrete instance of the conditional part of
`C9_empty_link_collision`. -/
theorem C9_witness :
    Deduplicator.deduplicate (4/5)
        ([⟨"abc", "", "", none, ""⟩] ++ [⟨"zzz", "", "", none, ""⟩])
      = Deduplicator.deduplicate (4/5) [⟨"abc", "", "", none, ""⟩] :=
  C9_empty_link_collision.2.1 (4/5) _ _ rfl (by decide)

/-- C3: the aggregation sort returns a permutation of the concatenated
input sequences (no article dropped or mutated), pairwise descending on
the `get_date` key, stable (articles with equal keys keep their relative
input order: the subsequence at each key value is unchanged), with a
missing `published` mapping to the minimum possible key `⊥`; on
`[A(t=2), B(t=1), C(no date)]` merged with `[D(t=3)]` it yields
`D, A, B, C`. -/
theorem C3_aggregation_sort (sources : List (List Article)) :
    (Aggregator.fetchAllMerge sources).Perm sources.flatten
    ∧ (Aggregator.fetchAllMerge sources).Pairwise Aggregator.dateGe
    ∧ (∀ k : WithBot ℚ,
        (Aggregator.fetchAllMerge sources).filter (fun b => decide (Aggregator.getDate b = k)) =
          sources.flatten.filter (fun b => decide (Aggregator.getDate b = k)))
    ∧ (∀ a : Article, a.published = none → Aggregator.getDate a = ⊥)
    ∧ Aggregator.fetchAllMerge
        [[⟨"A", "", "a", some ⟨2, none⟩, ""⟩, ⟨"B", "", "b", some ⟨1, none⟩, ""⟩,
          ⟨"C", "", "c", none, ""⟩], [⟨"D", "", "d", some ⟨3, none⟩, ""⟩]]
        = [⟨"D", "", "d", some ⟨3, none⟩, ""⟩, ⟨"A", "", "a", some ⟨2, none⟩, ""⟩,
           ⟨"B", "", "b", some ⟨1, none⟩, ""⟩, ⟨"C", "", "c", none, ""⟩] := by
  refine ⟨List.perm_insertionSort Aggregator.dateGe _,
    List.sorted_insertionSort Aggregator.dateGe _,
    fun k => Aggregator.filter_key_sortByDate k _,
    fun a h => by simp [Aggregator.getDate, h],
    by decide⟩

/-- C3 witness: the dateless article of the spec example takes the minimum
possible key. -/
theorem C3_witness : Aggregator.getDate ⟨"C", "", "c", none, ""⟩ = ⊥ :=
  (C3_aggregation_sort []).2.2.2.1 _ rfl

/-- C4: for a positive window, `TimeFilter.filter` equals the order
preserving `List.filter` that keeps an article iff its `published` is
absent, or its wall-clock value (the offset, if any, having been
stripped) is `≥ now - hours` for the single `now` snapshot; the output is
a sublist of the input. -/
theorem C4_time_filter (hours : ℤ) (now : ℚ) (l : List Article) (_hpos : 0 < hours) :
    TimeFilter.filter hours now l =
      l.filter (fun a =>
        match a.published with
        | none => true
        | some d => decide (now - (hours : ℚ) ≤ d.wall))
    ∧ (TimeFilter.filter hours now l).Sublist l := by
  have h1 : TimeFilter.filter hours now l =
      l.filter (fun a =>
        match a.published with
        | none => true
        | some d => decide (now - (hours : ℚ) ≤ d.wall)) := by
    unfold TimeFilter.filter
    by_cases hl : l = []
    · rw [if_pos hl, hl]; rfl
    · rw [if_neg hl]; exact TimeFilter.filterGo_eq_filter _ l
  exact ⟨h1, h1 ▸ List.filter_sublist l⟩

/-- C4 witness: the 24-hour filter at `now = 100` keeps the in-window
article, the dateless article and the aware article evaluated by
wall-clock, and drops the out-of-window one. -/
theorem C4_witness :
    TimeFilter.filter 24 100
        [⟨"p", "", "l", some ⟨76, none⟩, ""⟩, ⟨"q", "", "l", some ⟨75, none⟩, ""⟩,
         ⟨"r", "", "l", none, ""⟩, ⟨"s", "", "l", some ⟨80, some 8⟩, ""⟩] =
      ([⟨"p", "", "l", some ⟨76, none⟩, ""⟩, ⟨"q", "", "l", some ⟨75, none⟩, ""⟩,
        ⟨"r", "", "l", none, ""⟩, ⟨"s", "", "l", some ⟨80, some 8⟩, ""⟩].filter (fun a =>
          match a.published with
          | none => true
          | some d => decide ((100 : ℚ) - ((24 : ℤ) : ℚ) ≤ d.wall))) :=
  (C4_time_filter 24 100 _ (by decide)).1

/-- C6 (the code lacks the validation the claim describes): both
constructors store an invalid configuration unchecked instead of
rejecting it, and the resulting filters silently misbehave — with
`hours = -1` the cutoff lies in the future and a just-published article
is dropped; with threshold `3/2` two identically titled articles are both
kept. -/
theorem C6_no_config_validation :
    TimeFilter.init (-1) = ⟨-1⟩
    ∧ Deduplicator.init (3/2) = ⟨3/2⟩
    ∧ TimeFilter.filter (TimeFilter.init (-1)).hours 0 [⟨"fresh", "", "l", some ⟨0, none⟩, ""⟩] = []
    ∧ Deduplicator.deduplicate (Deduplicator.init (3/2)).similarityThreshold
        [⟨"same title", "", "https://a.com/1", none, ""⟩,
         ⟨"same title", "", "https://a.com/2", none, ""⟩]
        = [⟨"same title", "", "https://a.com/1", none, ""⟩,
           ⟨"same title", "", "https://a.com/2", none, ""⟩] :=
  ⟨rfl, rfl, by decide, by decide⟩

/-- C7: with an empty topic vocabulary, `KeywordFilter.filter` returns its
input unchanged. -/
theorem C7_empty_vocab_noop (l : List Article) :
    KeywordFilter.filter [] l = l := by
  unfold KeywordFilter.filter
  rw [if_pos rfl]

/-- C8: with a non-empty topic list the filter keeps, in input order,
exactly the articles for which some topic, lower-cased, occurs as a plain
substring of the blob of lower-cased title and summary; the topic `AI`
matches a title containing `AICore`. -/
theorem C8_keyword_substring :
    (∀ (topics : List String) (l : List Article), topics ≠ [] →
        KeywordFilter.filter topics l = l.filter (KeywordFilter.matchesAnyTopic topics))
    ∧ (∀ (topics : List String) (a : Article),
        KeywordFilter.matchesAnyTopic topics a = true ↔
          ∃ t ∈ topics, ∃ pre post : List Char,
            KeywordFilter.lower a.title ++ (' ' :: KeywordFilter.lower a.summary) =
              pre ++ KeywordFilter.lower t ++ post)
    ∧ (∀ (topics : List String) (l : List Article), topics ≠ [] →
        (KeywordFilter.filter topics l).Sublist l)
    ∧ KeywordFilter.matchesAnyTopic ["AI"] ⟨"AICore 框架上线", "", "", none, ""⟩ = true := by
  refine ⟨?_, ?_, ?_, by decide⟩
  · intro topics l h
    unfold KeywordFilter.filter
    rw [if_neg h]
  · intro topics a
    simp only [KeywordFilter.matchesAnyTopic, List.any_eq_true, KeywordFilter.containsSub_iff]
  · intro topics l h
    unfold KeywordFilter.filter
    rw [if_neg h]
    exact List.filter_sublist l

/-- C8 witness: the filter-equation part of `C8_keyword_substring` at a
concrete vocabulary and input. -/
theorem C8_witness :
    KeywordFilter.filter ["AI"]
        [⟨"AICore 框架上线", "", "", none, ""⟩, ⟨"nothing here", "", "", none, ""⟩]
      = [⟨"AICore 框架上线", "", "", none, ""⟩,
         ⟨"nothing here", "", "", none, ""⟩].filter (KeywordFilter.matchesAnyTopic ["AI"]) :=
  C8_keyword_substring.1 ["AI"] _ (by decide)

/-- C10: whatever topic list the caller supplies and whatever the
environment lookup yields, the constructed vocabulary is non-empty (the
built-in default list backs every empty source), so the constructed
filter always takes the matching branch, never the empty-vocabulary
pass-through. -/
theorem C10_default_vocab_fallback (topics : Option (List String)) (envTopics : List String) :
    0 < (KeywordFilter.init topics envTopics).length
    ∧ KeywordFilter.init none [] = KeywordFilter.DEFAULT_TOPICS
    ∧ KeywordFilter.init (some []) [] = KeywordFilter.DEFAULT_TOPICS
    ∧ (∀ l : List Article,
        KeywordFilter.filter (KeywordFilter.init topics envTopics) l =
          l.filter (KeywordFilter.matchesAnyTopic (KeywordFilter.init topics envTopics))) := by
  have hne : KeywordFilter.init topics envTopics ≠ [] := by
    unfold KeywordFilter.init KeywordFilter.pyOr
    by_cases h1 : topics.getD [] = []
    · rw [if_pos h1]
      by_cases h2 : envTopics = []
      · rw [if_pos h2]; decide
      · rw [if_neg h2]; exact h2
    · rw [if_neg h1]; exact h1
  refine ⟨List.length_pos.mpr hne, rfl, rfl, ?_⟩
  intro l
  unfold KeywordFilter.filter
  rw [if_neg hne]
